import Mathlib

/-!
Verification of the yalisp parser and evaluator (src/yalisp.h) against its
natural-language specification.

The C code is shallowly embedded: the input string is a `List Char` (a C
string is its NUL-free character content; reading the terminator or any
position past the end is modelled by the sentinel `nulC`), the mutated
`size_t *pos` cursor is threaded explicitly, and the C `int` is an `Int`
wrapped to 32 bits (`wrap32`) at every arithmetic step, matching the
declared wrap-at-host-width policy.  Fallible operations return explicit
outcome types; behaviour that is undefined in C (out-of-bounds reads) is
modelled by an explicit `ub` outcome rather than being silently completed.
-/

namespace Yalisp

/-! ## Characters and machine integers -/

/-- The NUL terminator, `input[strlen(input)]` in C.  Reading any index at
or past the end of the character content yields this sentinel. -/
def nulC : Char := Char.ofNat 0

/-- Tab, one of the three whitespace characters recognised by `parse`. -/
def tabC : Char := Char.ofNat 9

/-- Newline, one of the three whitespace characters recognised by `parse`. -/
def nlC : Char := Char.ofNat 10

/-- The double-quote delimiter of string literals. -/
def quoteC : Char := Char.ofNat 34

/-- Whitespace test of the skip loop in `parse` (space, newline, tab). -/
def isWsC (c : Char) : Bool := c = ' ' || c = nlC || c = tabC

/-- Digit test `input[*pos] >= '0' && input[*pos] <= '9'`. -/
def isDigitC (c : Char) : Bool := 48 ≤ c.toNat && c.toNat ≤ 57

/-- The characters that terminate a symbol run in `parse`:
space, `)`, newline, tab — and nothing else (in particular neither `(`
nor the NUL terminator stops the scan). -/
def stopC (c : Char) : Bool := c = ' ' || c = ')' || c = nlC || c = tabC

/-- Digit value `c - '0'`. -/
def dval (c : Char) : Int := (c.toNat : Int) - 48

/-- Wrap an integer to the 32-bit signed range, the declared overflow
policy for the host `int` arithmetic of the reference. -/
def wrap32 (x : Int) : Int := (x + 2147483648) % 4294967296 - 2147483648

/-- Read `input[i]`: the character content if `i` is in bounds, the NUL
terminator otherwise (in C, indices strictly past the terminator are
out of bounds; `parse` is only ever invoked with the cursor at or before
the terminator). -/
def getC (s : List Char) (i : Nat) : Char := (s.drop i).headD nulC

/-! ## AST nodes, values, results (the tagged unions of yalisp.h) -/

/-- `ast_node`: the four node variants of the C tagged union. -/
inductive ast_node where
  | int (v : Int)
  | sym (name : List Char)
  | str (text : List Char)
  | list (items : List ast_node)

/-- `value`: the two runtime value variants. -/
inductive value where
  | intV (n : Int)
  | strV (s : List Char)

/-- `result` of `eval_ast_node`, with an explicit `ub` outcome for the
paths on which the C code performs an out-of-bounds access. -/
inductive eres where
  | ok (v : value)
  | err (msg : String)
  | ub

/-- `parse_result` together with the final value of the mutated cursor
`*pos`; `ub` marks executions on which the C code reads past the end of
the input buffer, `timeout` is an artifact of the fuelled model and is
proved unreachable for the standard fuel. -/
inductive pres where
  | ok (node : ast_node) (pos : Nat)
  | err (msg : String) (pos : Nat)
  | ub
  | timeout

/-! ## The scanning loops of parse

Each C scanning loop walks the NUL-terminated buffer by index.  The model
recurses over the remaining suffix of the character content: reaching the
end of the suffix is exactly reaching the terminator.  Each scanner
returns the number of characters consumed. -/

/-- Whitespace skip loop: number of leading whitespace characters
(the terminator is not whitespace, so the loop stops there). -/
def wsSkipL : List Char → Nat
  | [] => 0
  | c :: r => if isWsC c then wsSkipL r + 1 else 0

/-- Position of the cursor after the whitespace skip starting at `i`. -/
def wsSkip (s : List Char) (i : Nat) : Nat := i + wsSkipL (s.drop i)

/-- Integer literal loop: `value = value * 10 + (c - '0')` over the maximal
digit run (the terminator is not a digit, so the loop stops there).
Returns (characters consumed, accumulated value). -/
def scanIntL : List Char → Int → Nat × Int
  | [], v => (0, v)
  | c :: r, v =>
    if isDigitC c then
      let p := scanIntL r (wrap32 (v * 10 + dval c))
      (p.1 + 1, p.2)
    else (0, v)

/-- String literal loop: scan until `"` or NUL.  Returns (characters
consumed, whether a closing quote was found); `false` means the loop
stopped on the terminator (or an embedded NUL) — an unterminated
literal. -/
def scanStrL : List Char → Nat × Bool
  | [] => (0, false)
  | c :: r =>
    if c = quoteC then (0, true)
    else if c = nulC then (0, false)
    else
      let p := scanStrL r
      (p.1 + 1, p.2)

/-- Symbol loop: scan while the character is none of space, `)`, newline,
tab.  The C loop does not test for the terminator; if the run reaches the
end of the content the loop walks past the terminator — an out-of-bounds
read.  Returns (characters consumed, whether a stop character was found
before the end); `false` marks that undefined behaviour. -/
def scanSymL : List Char → Nat × Bool
  | [] => (0, false)
  | c :: r =>
    if stopC c then (0, true)
    else
      let p := scanSymL r
      (p.1 + 1, p.2)

/-! ## parse

`parse(const char *input, size_t *pos)` is modelled by `parseF` with an
explicit fuel argument bounding the recursion depth; `parse` instantiates
the fuel with `2 * length + 3`, which is proved sufficient
(`parse` never returns `timeout`).  `itemsF` is the child-collecting loop
of the `(` branch. -/

mutual

/-- One call of the C `parse`: skip whitespace, dispatch on the next
character ( `(` / digit / `"` / other-non-NUL / NUL ). -/
def parseF : Nat → List Char → Nat → pres
  | 0, _, _ => .timeout
  | f + 1, s, pos =>
    let p := wsSkip s pos
    let c := getC s p
    if c = '(' then
      itemsF f s (p + 1) []
    else if isDigitC c then
      let r := scanIntL (s.drop p) 0
      .ok (.int r.2) (p + r.1)
    else if c = quoteC then
      let r := scanStrL (s.drop (p + 1))
      if r.2 then .ok (.str ((s.drop (p + 1)).take r.1)) (p + 1 + r.1 + 1)
      else .err "Unterminated string literal in input" (p + 1 + r.1)
    else if c ≠ nulC then
      let r := scanSymL (s.drop p)
      if r.2 then .ok (.sym ((s.drop p).take r.1)) (p + r.1)
      else .ub
    else .err "Unexpected end of input" p

/-- The list-building loop of the `(` branch: while the current character
is neither `)` nor NUL, parse a child and append it; on NUL fail with the
unmatched-parenthesis error, otherwise consume the `)`. -/
def itemsF : Nat → List Char → Nat → List ast_node → pres
  | 0, _, _, _ => .timeout
  | f + 1, s, p, acc =>
    if getC s p ≠ ')' ∧ getC s p ≠ nulC then
      match parseF f s p with
      | .ok n q => itemsF f s q (acc ++ [n])
      | r => r
    else if getC s p = nulC then
      .err "Unmatched '(' in input" p
    else
      .ok (.list acc) (p + 1)

end

/-- Fuel sufficient for any call of `parseF` on `s` (proved below). -/
def stdFuel (s : List Char) : Nat := 2 * s.length + 3

/-- `parse(input, pos)`. -/
def parse (s : List Char) (pos : Nat) : pres := parseF (stdFuel s) s pos

/-! ## eval_ast_node

The three operator loops of the C code are modelled by one recursive
function each.  The two passes of the `concat` branch (length count, then
copy) see identical evaluation results since evaluation is pure, so they
are modelled by a single accumulating pass.  For `-` the C code evaluates
`node->list.items[1]` before any length check: with fewer than two
children this reads past the end of the `items` array — `ub`. -/

mutual

/-- `eval_ast_node`. -/
def eval_ast_node : ast_node → eres
  | .int v => .ok (.intV v)
  | .str s => .ok (.strV s)
  | .sym _ => .err "Cannot evaluate a standalone symbol"
  | .list [] => .err "Cannot evaluate an empty list"
  | .list (op :: args) =>
    match op with
    | .sym name =>
      if name = ['+'] then
        plusLoop args 0
      else if name = ['-'] then
        match args with
        | [] => .ub
        | first :: rest =>
          match eval_ast_node first with
          | .ok (.intV k) => minusLoop rest k
          | .ok (.strV _) => .err "Non-integer argument to +"
          | r => r
      else if name = "concat".toList then
        concatLoop args []
      else .err "Unknown operator"
    | _ => .err "First element of a list must be a symbol (operator)"
termination_by n => sizeOf n
decreasing_by all_goals (simp_wf; try omega)

/-- The argument fold of `+`: `sum += arg`. -/
def plusLoop : List ast_node → Int → eres
  | [], sum => .ok (.intV sum)
  | a :: rest, sum =>
    match eval_ast_node a with
    | .ok (.intV k) => plusLoop rest (wrap32 (sum + k))
    | .ok (.strV _) => .err "Non-integer argument to +"
    | r => r
termination_by l _ => sizeOf l
decreasing_by all_goals (simp_wf; try omega)

/-- The argument fold of `-` over `items[2..]`: `diff -= arg`.  (The C
code reuses the `+` mismatch message here.) -/
def minusLoop : List ast_node → Int → eres
  | [], diff => .ok (.intV diff)
  | a :: rest, diff =>
    match eval_ast_node a with
    | .ok (.intV k) => minusLoop rest (wrap32 (diff - k))
    | .ok (.strV _) => .err "Non-integer argument to +"
    | r => r
termination_by l _ => sizeOf l
decreasing_by all_goals (simp_wf; try omega)

/-- The argument fold of `concat`. -/
def concatLoop : List ast_node → List Char → eres
  | [], acc => .ok (.strV acc)
  | a :: rest, acc =>
    match eval_ast_node a with
    | .ok (.strV t) => concatLoop rest (acc ++ t)
    | .ok (.intV _) => .err "Non-string argument to concat"
    | r => r
termination_by l _ => sizeOf l
decreasing_by all_goals (simp_wf; try omega)

end

/-! ## Auxiliary predicates and spec-side constructions -/

/-- Whether a node is a `Symbol` node (the operator-position check). -/
def isSymNode : ast_node → Bool
  | .sym _ => true
  | _ => false

/-- Every `Symbol` node anywhere in the tree has a name consisting only of
characters that are not symbol-stop characters. -/
def symbolsOk : ast_node → Bool
  | .int _ => true
  | .str _ => true
  | .sym name => name.all (fun c => !stopC c)
  | .list items => items.attach.all (fun x => symbolsOk x.1)
termination_by n => sizeOf n
decreasing_by
  simp_wf
  have := List.sizeOf_lt_of_mem x.2
  omega

/-- The decimal digits of `n`, most significant first (spec-side: the
decimal text of a non-negative integer, used to state the literal
round-trip property). -/
def natDigits (n : Nat) : List Nat :=
  if n < 10 then [n] else natDigits (n / 10) ++ [n % 10]
termination_by n
decreasing_by
  simp_wf
  omega

/-- The decimal text of `n` as characters. -/
def natText (n : Nat) : List Char := (natDigits n).map (fun d => Char.ofNat (48 + d))

/-! ## Lemmas about the character reader and the scanners -/

theorem getC_of_le (s : List Char) (i : Nat) (h : s.length ≤ i) : getC s i = nulC := by
  simp [getC, List.drop_eq_nil_of_le h]

theorem lt_of_getC_ne_nul (s : List Char) (i : Nat) (h : getC s i ≠ nulC) :
    i < s.length := by
  by_contra hge
  exact h (getC_of_le s i (by omega))

theorem getC_drop (s : List Char) (i k : Nat) :
    getC s (i + k) = ((s.drop i).drop k).headD nulC := by
  rw [getC, List.drop_drop]

theorem wsSkipL_le (l : List Char) : wsSkipL l ≤ l.length := by
  induction l with
  | nil => simp [wsSkipL]
  | cons c r ih => simp only [wsSkipL, List.length_cons]; split <;> omega

theorem wsSkipL_stop (l : List Char) :
    isWsC ((l.drop (wsSkipL l)).headD nulC) = false := by
  induction l with
  | nil => simp [wsSkipL]; decide
  | cons c r ih =>
    by_cases h : isWsC c
    · simpa [wsSkipL, h] using ih
    · simpa [wsSkipL, h] using h

theorem wsSkip_ge (s : List Char) (pos : Nat) : pos ≤ wsSkip s pos :=
  Nat.le_add_right _ _

theorem wsSkip_le (s : List Char) (pos : Nat) (h : pos ≤ s.length) :
    wsSkip s pos ≤ s.length := by
  have h1 := wsSkipL_le (s.drop pos)
  simp only [List.length_drop] at h1
  unfold wsSkip
  omega

theorem getC_wsSkip (s : List Char) (pos : Nat) :
    isWsC (getC s (wsSkip s pos)) = false := by
  rw [wsSkip, getC_drop]
  exact wsSkipL_stop (s.drop pos)

theorem wsSkip_of_not_ws (s : List Char) (pos : Nat)
    (h : isWsC (getC s pos) = false) : wsSkip s pos = pos := by
  unfold wsSkip
  cases hd : s.drop pos with
  | nil => simp [wsSkipL]
  | cons c r =>
    have hc : getC s pos = c := by rw [getC, hd]; rfl
    rw [hc] at h
    simp [wsSkipL, h]

theorem wsSkip_lt_of_ws (s : List Char) (pos : Nat)
    (h : isWsC (getC s pos) = true) : pos < wsSkip s pos := by
  unfold wsSkip
  cases hd : s.drop pos with
  | nil =>
    rw [getC, hd] at h
    simp at h
    exact absurd h (by decide)
  | cons c r =>
    have hc : getC s pos = c := by rw [getC, hd]; rfl
    rw [hc] at h
    simp [wsSkipL, h]

theorem scanIntL_cons_digit (c : Char) (r : List Char) (v : Int)
    (h : isDigitC c = true) :
    scanIntL (c :: r) v =
      ((scanIntL r (wrap32 (v * 10 + dval c))).1 + 1,
       (scanIntL r (wrap32 (v * 10 + dval c))).2) := by
  simp [scanIntL, h]

theorem scanIntL_cons_other (c : Char) (r : List Char) (v : Int)
    (h : isDigitC c = false) : scanIntL (c :: r) v = (0, v) := by
  simp [scanIntL, h]

theorem scanIntL_le (l : List Char) : ∀ v, (scanIntL l v).1 ≤ l.length := by
  induction l with
  | nil => intro v; simp [scanIntL]
  | cons c r ih =>
    intro v
    by_cases h : isDigitC c
    · rw [scanIntL_cons_digit c r v h]
      have := ih (wrap32 (v * 10 + dval c))
      simp only [List.length_cons]
      omega
    · rw [scanIntL_cons_other c r v (by simpa using h)]
      simp

theorem scanIntL_pos (c : Char) (r : List Char) (v : Int)
    (h : isDigitC c = true) : 1 ≤ (scanIntL (c :: r) v).1 := by
  rw [scanIntL_cons_digit c r v h]
  simp

theorem scanStrL_cons_quote (c : Char) (r : List Char) (h : c = quoteC) :
    scanStrL (c :: r) = (0, true) := by
  simp [scanStrL, h]

theorem scanStrL_cons_nul (c : Char) (r : List Char) (h1 : c ≠ quoteC)
    (h2 : c = nulC) : scanStrL (c :: r) = (0, false) := by
  subst h2
  simp [scanStrL, show ¬(nulC = quoteC) from by decide]

theorem scanStrL_cons_go (c : Char) (r : List Char) (h1 : c ≠ quoteC)
    (h2 : c ≠ nulC) :
    scanStrL (c :: r) = ((scanStrL r).1 + 1, (scanStrL r).2) := by
  simp [scanStrL, h1, h2]

theorem scanStrL_le (l : List Char) : (scanStrL l).1 ≤ l.length := by
  induction l with
  | nil => simp [scanStrL]
  | cons c r ih =>
    by_cases h1 : c = quoteC
    · rw [scanStrL_cons_quote c r h1]; simp
    · by_cases h2 : c = nulC
      · rw [scanStrL_cons_nul c r h1 h2]; simp
      · rw [scanStrL_cons_go c r h1 h2]
        simp only [List.length_cons]
        omega

theorem scanStrL_lt (l : List Char) (h : (scanStrL l).2 = true) :
    (scanStrL l).1 < l.length := by
  induction l with
  | nil => simp [scanStrL] at h
  | cons c r ih =>
    by_cases h1 : c = quoteC
    · rw [scanStrL_cons_quote c r h1]; simp
    · by_cases h2 : c = nulC
      · rw [scanStrL_cons_nul c r h1 h2] at h; simp at h
      · rw [scanStrL_cons_go c r h1 h2] at h ⊢
        have := ih h
        simp only [List.length_cons]
        omega

theorem scanSymL_cons_stop (c : Char) (r : List Char) (h : stopC c = true) :
    scanSymL (c :: r) = (0, true) := by
  simp [scanSymL, h]

theorem scanSymL_cons_go (c : Char) (r : List Char) (h : stopC c = false) :
    scanSymL (c :: r) = ((scanSymL r).1 + 1, (scanSymL r).2) := by
  simp [scanSymL, h]

theorem scanSymL_le (l : List Char) : (scanSymL l).1 ≤ l.length := by
  induction l with
  | nil => simp [scanSymL]
  | cons c r ih =>
    by_cases h : stopC c
    · rw [scanSymL_cons_stop c r h]; simp
    · rw [scanSymL_cons_go c r (by simpa using h)]
      simp only [List.length_cons]
      omega

theorem scanSymL_lt (l : List Char) (h : (scanSymL l).2 = true) :
    (scanSymL l).1 < l.length := by
  induction l with
  | nil => simp [scanSymL] at h
  | cons c r ih =>
    by_cases hc : stopC c
    · rw [scanSymL_cons_stop c r hc]; simp
    · rw [scanSymL_cons_go c r (by simpa using hc)] at h ⊢
      have := ih h
      simp only [List.length_cons]
      omega

theorem scanSymL_pos (c : Char) (r : List Char) (h : stopC c = false) :
    1 ≤ (scanSymL (c :: r)).1 := by
  rw [scanSymL_cons_go c r h]
  simp

theorem scanSymL_take (l : List Char) :
    ∀ c ∈ l.take (scanSymL l).1, stopC c = false := by
  induction l with
  | nil => simp
  | cons c r ih =>
    by_cases hc : stopC c
    · rw [scanSymL_cons_stop c r hc]
      simp
    · rw [scanSymL_cons_go c r (by simpa using hc)]
      intro d hd
      rw [List.take_succ_cons] at hd
      rcases List.mem_cons.1 hd with h1 | h1
      · subst h1; simpa using hc
      · exact ih d h1

theorem scanSymL_stop (l : List Char) (h : (scanSymL l).2 = true) :
    stopC ((l.drop (scanSymL l).1).headD nulC) = true := by
  induction l with
  | nil => simp [scanSymL] at h
  | cons c r ih =>
    by_cases hc : stopC c
    · rw [scanSymL_cons_stop c r hc]
      simpa using hc
    · rw [scanSymL_cons_go c r (by simpa using hc)] at h ⊢
      rw [List.drop_succ_cons]
      exact ih h

/-! ## Branch equations for parseF and itemsF -/

theorem parseF_paren (f : Nat) (s : List Char) (pos : Nat)
    (h : getC s (wsSkip s pos) = '(') :
    parseF (f + 1) s pos = itemsF f s (wsSkip s pos + 1) [] := by
  simp only [parseF]
  rw [if_pos h]

theorem parseF_digit (f : Nat) (s : List Char) (pos : Nat)
    (h : isDigitC (getC s (wsSkip s pos)) = true) :
    parseF (f + 1) s pos =
      .ok (.int (scanIntL (s.drop (wsSkip s pos)) 0).2)
        (wsSkip s pos + (scanIntL (s.drop (wsSkip s pos)) 0).1) := by
  have h1 : getC s (wsSkip s pos) ≠ '(' := by
    intro he
    rw [he] at h
    exact absurd h (by decide)
  simp only [parseF]
  rw [if_neg h1, if_pos h]

theorem parseF_quote_ok (f : Nat) (s : List Char) (pos : Nat)
    (h : getC s (wsSkip s pos) = quoteC)
    (h4 : (scanStrL (s.drop (wsSkip s pos + 1))).2 = true) :
    parseF (f + 1) s pos =
      .ok (.str ((s.drop (wsSkip s pos + 1)).take
          (scanStrL (s.drop (wsSkip s pos + 1))).1))
        (wsSkip s pos + 1 + (scanStrL (s.drop (wsSkip s pos + 1))).1 + 1) := by
  simp only [parseF]
  rw [if_neg (by rw [h]; decide), if_neg (by rw [h]; decide), if_pos h, if_pos h4]

theorem parseF_quote_err (f : Nat) (s : List Char) (pos : Nat)
    (h : getC s (wsSkip s pos) = quoteC)
    (h4 : (scanStrL (s.drop (wsSkip s pos + 1))).2 = false) :
    parseF (f + 1) s pos =
      .err "Unterminated string literal in input"
        (wsSkip s pos + 1 + (scanStrL (s.drop (wsSkip s pos + 1))).1) := by
  simp only [parseF]
  rw [if_neg (by rw [h]; decide), if_neg (by rw [h]; decide), if_pos h,
    if_neg (by rw [h4]; decide)]

theorem parseF_sym_ok (f : Nat) (s : List Char) (pos : Nat)
    (h1 : getC s (wsSkip s pos) ≠ '(')
    (h2 : isDigitC (getC s (wsSkip s pos)) = false)
    (h3 : getC s (wsSkip s pos) ≠ quoteC)
    (h5 : getC s (wsSkip s pos) ≠ nulC)
    (h6 : (scanSymL (s.drop (wsSkip s pos))).2 = true) :
    parseF (f + 1) s pos =
      .ok (.sym ((s.drop (wsSkip s pos)).take
          (scanSymL (s.drop (wsSkip s pos))).1))
        (wsSkip s pos + (scanSymL (s.drop (wsSkip s pos))).1) := by
  simp only [parseF]
  rw [if_neg h1, if_neg (by rw [h2]; decide), if_neg h3, if_pos h5, if_pos h6]

theorem parseF_sym_ub (f : Nat) (s : List Char) (pos : Nat)
    (h1 : getC s (wsSkip s pos) ≠ '(')
    (h2 : isDigitC (getC s (wsSkip s pos)) = false)
    (h3 : getC s (wsSkip s pos) ≠ quoteC)
    (h5 : getC s (wsSkip s pos) ≠ nulC)
    (h6 : (scanSymL (s.drop (wsSkip s pos))).2 = false) :
    parseF (f + 1) s pos = .ub := by
  simp only [parseF]
  rw [if_neg h1, if_neg (by rw [h2]; decide), if_neg h3, if_pos h5,
    if_neg (by rw [h6]; decide)]

theorem parseF_nul (f : Nat) (s : List Char) (pos : Nat)
    (h : getC s (wsSkip s pos) = nulC) :
    parseF (f + 1) s pos = .err "Unexpected end of input" (wsSkip s pos) := by
  simp only [parseF]
  rw [if_neg (by rw [h]; decide), if_neg (by rw [h]; decide),
    if_neg (by rw [h]; decide), if_neg (by rw [h]; simp)]

theorem itemsF_go (f : Nat) (s : List Char) (p : Nat) (acc : List ast_node)
    (h1 : getC s p ≠ ')') (h2 : getC s p ≠ nulC) :
    itemsF (f + 1) s p acc =
      match parseF f s p with
      | .ok n q => itemsF f s q (acc ++ [n])
      | r => r := by
  simp only [itemsF]
  rw [if_pos ⟨h1, h2⟩]

theorem itemsF_nul (f : Nat) (s : List Char) (p : Nat) (acc : List ast_node)
    (h : getC s p = nulC) :
    itemsF (f + 1) s p acc = .err "Unmatched '(' in input" p := by
  simp only [itemsF]
  rw [if_neg (fun hx => hx.2 h), if_pos h]

theorem itemsF_close (f : Nat) (s : List Char) (p : Nat) (acc : List ast_node)
    (h : getC s p = ')') :
    itemsF (f + 1) s p acc = .ok (.list acc) (p + 1) := by
  simp only [itemsF]
  rw [if_neg (fun hx => hx.1 h), if_neg (by rw [h]; decide)]

/-! ## Bounds, advancement, fuel sufficiency, error classification -/

theorem drop_eq_getC_cons (s : List Char) (p : Nat) (h : p < s.length) :
    s.drop p = getC s p :: s.drop (p + 1) := by
  rw [List.drop_eq_getElem_cons h, getC, List.drop_eq_getElem_cons h]
  rfl

theorem stopC_eq_false (c : Char) (hw : isWsC c = false) (hp : c ≠ ')') :
    stopC c = false := by
  simp only [isWsC, Bool.or_eq_false_iff, decide_eq_false_iff_not] at hw
  obtain ⟨⟨hw1, hw2⟩, hw3⟩ := hw
  simp [stopC, hw1, hw2, hw3, hp]

theorem parse_bounds (s : List Char) :
    ∀ f : Nat,
      (∀ pos n p2, parseF f s pos = .ok n p2 →
        wsSkip s pos ≤ p2 ∧ p2 ≤ s.length) ∧
      (∀ p acc n p2, itemsF f s p acc = .ok n p2 →
        p ≤ p2 ∧ p2 ≤ s.length) := by
  intro f
  induction f with
  | zero =>
    constructor
    · intro pos n p2 h
      exact pres.noConfusion h
    · intro p acc n p2 h
      exact pres.noConfusion h
  | succ f ih =>
    obtain ⟨ihA, ihB⟩ := ih
    constructor
    · intro pos n p2 h
      by_cases h1 : getC s (wsSkip s pos) = '('
      · rw [parseF_paren f s pos h1] at h
        have hb := ihB (wsSkip s pos + 1) [] n p2 h
        omega
      · by_cases h2 : isDigitC (getC s (wsSkip s pos)) = true
        · rw [parseF_digit f s pos h2] at h
          injection h with hn hp
          have h5 : getC s (wsSkip s pos) ≠ nulC := by
            intro he
            rw [he] at h2
            exact absurd h2 (by decide)
          have hlt := lt_of_getC_ne_nul s _ h5
          have hle := scanIntL_le (s.drop (wsSkip s pos)) 0
          rw [List.length_drop] at hle
          omega
        · by_cases h3 : getC s (wsSkip s pos) = quoteC
          · by_cases h4 : (scanStrL (s.drop (wsSkip s pos + 1))).2 = true
            · rw [parseF_quote_ok f s pos h3 h4] at h
              injection h with hn hp
              have h5 : getC s (wsSkip s pos) ≠ nulC := by rw [h3]; decide
              have hlt := lt_of_getC_ne_nul s _ h5
              have hle := scanStrL_lt (s.drop (wsSkip s pos + 1)) h4
              rw [List.length_drop] at hle
              omega
            · rw [parseF_quote_err f s pos h3 (by simpa using h4)] at h
              exact pres.noConfusion h
          · by_cases h5 : getC s (wsSkip s pos) = nulC
            · rw [parseF_nul f s pos h5] at h
              exact pres.noConfusion h
            · by_cases h6 : (scanSymL (s.drop (wsSkip s pos))).2 = true
              · rw [parseF_sym_ok f s pos h1 (by simpa using h2) h3 h5 h6] at h
                injection h with hn hp
                have hlt := lt_of_getC_ne_nul s _ h5
                have hle := scanSymL_lt (s.drop (wsSkip s pos)) h6
                rw [List.length_drop] at hle
                omega
              · rw [parseF_sym_ub f s pos h1 (by simpa using h2) h3 h5
                  (by simpa using h6)] at h
                exact pres.noConfusion h
    · intro p acc n p2 h
      by_cases h1 : getC s p = ')'
      · rw [itemsF_close f s p acc h1] at h
        injection h with hn hp
        have h2 : getC s p ≠ nulC := by rw [h1]; decide
        have hlt := lt_of_getC_ne_nul s _ h2
        omega
      · by_cases h2 : getC s p = nulC
        · rw [itemsF_nul f s p acc h2] at h
          exact pres.noConfusion h
        · rw [itemsF_go f s p acc h1 h2] at h
          cases hp : parseF f s p with
          | ok n1 q =>
            rw [hp] at h
            have ha := ihA p n1 q hp
            have hb := ihB q (acc ++ [n1]) n p2 h
            have hws := wsSkip_ge s p
            omega
          | err m q =>
            rw [hp] at h
            exact pres.noConfusion h
          | ub =>
            rw [hp] at h
            exact pres.noConfusion h
          | timeout =>
            rw [hp] at h
            exact pres.noConfusion h

theorem parse_advance (f : Nat) (s : List Char) (pos : Nat) (n : ast_node)
    (p2 : Nat) (h : parseF f s pos = .ok n p2)
    (hg1 : getC s pos ≠ ')') (hg2 : getC s pos ≠ nulC) : pos < p2 := by
  cases f with
  | zero => exact pres.noConfusion h
  | succ f =>
    by_cases hw : isWsC (getC s pos) = true
    · have h1 := wsSkip_lt_of_ws s pos hw
      have h2 := (parse_bounds s (f + 1)).1 pos n p2 h
      omega
    · have hws : wsSkip s pos = pos := wsSkip_of_not_ws s pos (by simpa using hw)
      by_cases h1 : getC s (wsSkip s pos) = '('
      · rw [parseF_paren f s pos h1] at h
        have hb := (parse_bounds s f).2 (wsSkip s pos + 1) [] n p2 h
        omega
      · by_cases h2 : isDigitC (getC s (wsSkip s pos)) = true
        · rw [parseF_digit f s pos h2] at h
          injection h with hn hp
          have h5 : getC s (wsSkip s pos) ≠ nulC := by
            intro he
            rw [he] at h2
            exact absurd h2 (by decide)
          have hlt := lt_of_getC_ne_nul s _ h5
          have hd : s.drop (wsSkip s pos) =
              getC s (wsSkip s pos) :: s.drop (wsSkip s pos + 1) :=
            drop_eq_getC_cons s _ hlt
          have hpos : 1 ≤ (scanIntL (s.drop (wsSkip s pos)) 0).1 := by
            rw [hd]
            exact scanIntL_pos _ _ 0 h2
          omega
        · by_cases h3 : getC s (wsSkip s pos) = quoteC
          · by_cases h4 : (scanStrL (s.drop (wsSkip s pos + 1))).2 = true
            · rw [parseF_quote_ok f s pos h3 h4] at h
              injection h with hn hp
              omega
            · rw [parseF_quote_err f s pos h3 (by simpa using h4)] at h
              exact pres.noConfusion h
          · by_cases h5 : getC s (wsSkip s pos) = nulC
            · rw [parseF_nul f s pos h5] at h
              exact pres.noConfusion h
            · by_cases h6 : (scanSymL (s.drop (wsSkip s pos))).2 = true
              · rw [parseF_sym_ok f s pos h1 (by simpa using h2) h3 h5 h6] at h
                injection h with hn hp
                have hlt := lt_of_getC_ne_nul s _ h5
                have hd : s.drop (wsSkip s pos) =
                    getC s (wsSkip s pos) :: s.drop (wsSkip s pos + 1) :=
                  drop_eq_getC_cons s _ hlt
                have hst : stopC (getC s (wsSkip s pos)) = false := by
                  rw [hws]
                  exact stopC_eq_false _ (by simpa using hw) hg1
                have hpos : 1 ≤ (scanSymL (s.drop (wsSkip s pos))).1 := by
                  rw [hd]
                  exact scanSymL_pos _ _ hst
                omega
              · rw [parseF_sym_ub f s pos h1 (by simpa using h2) h3 h5
                  (by simpa using h6)] at h
                exact pres.noConfusion h

theorem parse_fuel (s : List Char) :
    ∀ f : Nat,
      (∀ pos, 2 * (s.length + 1 - pos) + 1 ≤ f → parseF f s pos ≠ .timeout) ∧
      (∀ p acc, 2 * (s.length + 1 - p) + 2 ≤ f →
        itemsF f s p acc ≠ .timeout) := by
  intro f
  induction f with
  | zero =>
    constructor
    · intro pos hf
      omega
    · intro p acc hf
      omega
  | succ f ih =>
    obtain ⟨ihA, ihB⟩ := ih
    constructor
    · intro pos hf
      by_cases h1 : getC s (wsSkip s pos) = '('
      · rw [parseF_paren f s pos h1]
        have hw1 := wsSkip_ge s pos
        have hw2 := lt_of_getC_ne_nul s (wsSkip s pos) (by rw [h1]; decide)
        exact ihB (wsSkip s pos + 1) [] (by omega)
      · by_cases h2 : isDigitC (getC s (wsSkip s pos)) = true
        · rw [parseF_digit f s pos h2]
          simp
        · by_cases h3 : getC s (wsSkip s pos) = quoteC
          · by_cases h4 : (scanStrL (s.drop (wsSkip s pos + 1))).2 = true
            · rw [parseF_quote_ok f s pos h3 h4]
              simp
            · rw [parseF_quote_err f s pos h3 (by simpa using h4)]
              simp
          · by_cases h5 : getC s (wsSkip s pos) = nulC
            · rw [parseF_nul f s pos h5]
              simp
            · by_cases h6 : (scanSymL (s.drop (wsSkip s pos))).2 = true
              · rw [parseF_sym_ok f s pos h1 (by simpa using h2) h3 h5 h6]
                simp
              · rw [parseF_sym_ub f s pos h1 (by simpa using h2) h3 h5
                  (by simpa using h6)]
                simp
    · intro p acc hf
      by_cases h1 : getC s p = ')'
      · rw [itemsF_close f s p acc h1]
        simp
      · by_cases h2 : getC s p = nulC
        · rw [itemsF_nul f s p acc h2]
          simp
        · rw [itemsF_go f s p acc h1 h2]
          cases hp : parseF f s p with
          | ok n1 q =>
            have hadv : p < q := parse_advance f s p n1 q hp h1 h2
            have hbnd := (parse_bounds s f).1 p n1 q hp
            exact ihB q (acc ++ [n1]) (by omega)
          | err m q => simp
          | ub => simp
          | timeout => exact absurd hp (ihA p (by omega))

theorem parse_errs (s : List Char) :
    ∀ f : Nat,
      (∀ pos m p2, parseF f s pos = .err m p2 →
        m = "Unexpected end of input" ∨ m = "Unmatched '(' in input" ∨
          m = "Unterminated string literal in input") ∧
      (∀ p acc m p2, itemsF f s p acc = .err m p2 →
        m = "Unexpected end of input" ∨ m = "Unmatched '(' in input" ∨
          m = "Unterminated string literal in input") := by
  intro f
  induction f with
  | zero =>
    constructor
    · intro pos m p2 h
      exact pres.noConfusion h
    · intro p acc m p2 h
      exact pres.noConfusion h
  | succ f ih =>
    obtain ⟨ihA, ihB⟩ := ih
    constructor
    · intro pos m p2 h
      by_cases h1 : getC s (wsSkip s pos) = '('
      · rw [parseF_paren f s pos h1] at h
        exact ihB (wsSkip s pos + 1) [] m p2 h
      · by_cases h2 : isDigitC (getC s (wsSkip s pos)) = true
        · rw [parseF_digit f s pos h2] at h
          exact pres.noConfusion h
        · by_cases h3 : getC s (wsSkip s pos) = quoteC
          · by_cases h4 : (scanStrL (s.drop (wsSkip s pos + 1))).2 = true
            · rw [parseF_quote_ok f s pos h3 h4] at h
              exact pres.noConfusion h
            · rw [parseF_quote_err f s pos h3 (by simpa using h4)] at h
              injection h with hm hp
              exact Or.inr (Or.inr hm.symm)
          · by_cases h5 : getC s (wsSkip s pos) = nulC
            · rw [parseF_nul f s pos h5] at h
              injection h with hm hp
              exact Or.inl hm.symm
            · by_cases h6 : (scanSymL (s.drop (wsSkip s pos))).2 = true
              · rw [parseF_sym_ok f s pos h1 (by simpa using h2) h3 h5 h6] at h
                exact pres.noConfusion h
              · rw [parseF_sym_ub f s pos h1 (by simpa using h2) h3 h5
                  (by simpa using h6)] at h
                exact pres.noConfusion h
    · intro p acc m p2 h
      by_cases h1 : getC s p = ')'
      · rw [itemsF_close f s p acc h1] at h
        exact pres.noConfusion h
      · by_cases h2 : getC s p = nulC
        · rw [itemsF_nul f s p acc h2] at h
          injection h with hm hp
          exact Or.inr (Or.inl hm.symm)
        · rw [itemsF_go f s p acc h1 h2] at h
          cases hp : parseF f s p with
          | ok n1 q =>
            rw [hp] at h
            exact ihB q (acc ++ [n1]) m p2 h
          | err m1 q =>
            rw [hp] at h
            injection h with hm hp2
            exact hm ▸ ihA p m1 q hp
          | ub =>
            rw [hp] at h
            exact pres.noConfusion h
          | timeout =>
            rw [hp] at h
            exact pres.noConfusion h

/-! ## Symbol-node properties of parse results -/

theorem symbolsOk_list_iff (items : List ast_node) :
    symbolsOk (.list items) = true ↔ ∀ a ∈ items, symbolsOk a = true := by
  rw [symbolsOk]
  simp [List.all_eq_true]

theorem parse_symbolsOk (s : List Char) :
    ∀ f : Nat,
      (∀ pos n p2, parseF f s pos = .ok n p2 → symbolsOk n = true) ∧
      (∀ p acc n p2, (∀ a ∈ acc, symbolsOk a = true) →
        itemsF f s p acc = .ok n p2 → symbolsOk n = true) := by
  intro f
  induction f with
  | zero =>
    constructor
    · intro pos n p2 h
      exact pres.noConfusion h
    · intro p acc n p2 hacc h
      exact pres.noConfusion h
  | succ f ih =>
    obtain ⟨ihA, ihB⟩ := ih
    constructor
    · intro pos n p2 h
      by_cases h1 : getC s (wsSkip s pos) = '('
      · rw [parseF_paren f s pos h1] at h
        exact ihB (wsSkip s pos + 1) [] n p2 (by simp) h
      · by_cases h2 : isDigitC (getC s (wsSkip s pos)) = true
        · rw [parseF_digit f s pos h2] at h
          injection h with hn hp
          rw [← hn]
          simp [symbolsOk]
        · by_cases h3 : getC s (wsSkip s pos) = quoteC
          · by_cases h4 : (scanStrL (s.drop (wsSkip s pos + 1))).2 = true
            · rw [parseF_quote_ok f s pos h3 h4] at h
              injection h with hn hp
              rw [← hn]
              simp [symbolsOk]
            · rw [parseF_quote_err f s pos h3 (by simpa using h4)] at h
              exact pres.noConfusion h
          · by_cases h5 : getC s (wsSkip s pos) = nulC
            · rw [parseF_nul f s pos h5] at h
              exact pres.noConfusion h
            · by_cases h6 : (scanSymL (s.drop (wsSkip s pos))).2 = true
              · rw [parseF_sym_ok f s pos h1 (by simpa using h2) h3 h5 h6] at h
                injection h with hn hp
                rw [← hn, symbolsOk]
                rw [List.all_eq_true]
                intro c hc
                have := scanSymL_take (s.drop (wsSkip s pos)) c hc
                simp [this]
              · rw [parseF_sym_ub f s pos h1 (by simpa using h2) h3 h5
                  (by simpa using h6)] at h
                exact pres.noConfusion h
    · intro p acc n p2 hacc h
      by_cases h1 : getC s p = ')'
      · rw [itemsF_close f s p acc h1] at h
        injection h with hn hp
        rw [← hn]
        exact (symbolsOk_list_iff acc).2 hacc
      · by_cases h2 : getC s p = nulC
        · rw [itemsF_nul f s p acc h2] at h
          exact pres.noConfusion h
        · rw [itemsF_go f s p acc h1 h2] at h
          cases hp : parseF f s p with
          | ok n1 q =>
            rw [hp] at h
            refine ihB q (acc ++ [n1]) n p2 ?_ h
            intro a ha
            rcases List.mem_append.1 ha with ha1 | ha1
            · exact hacc a ha1
            · rw [List.mem_singleton.1 ha1]
              exact ihA p n1 q hp
          | err m q =>
            rw [hp] at h
            exact pres.noConfusion h
          | ub =>
            rw [hp] at h
            exact pres.noConfusion h
          | timeout =>
            rw [hp] at h
            exact pres.noConfusion h

theorem itemsF_shape (s : List Char) :
    ∀ f p acc n p2, itemsF f s p acc = .ok n p2 → ∃ items, n = .list items := by
  intro f
  induction f with
  | zero =>
    intro p acc n p2 h
    exact pres.noConfusion h
  | succ f ih =>
    intro p acc n p2 h
    by_cases h1 : getC s p = ')'
    · rw [itemsF_close f s p acc h1] at h
      injection h with hn hp
      exact ⟨acc, hn.symm⟩
    · by_cases h2 : getC s p = nulC
      · rw [itemsF_nul f s p acc h2] at h
        exact pres.noConfusion h
      · rw [itemsF_go f s p acc h1 h2] at h
        cases hp : parseF f s p with
        | ok n1 q =>
          rw [hp] at h
          exact ih q (acc ++ [n1]) n p2 h
        | err m q =>
          rw [hp] at h
          exact pres.noConfusion h
        | ub =>
          rw [hp] at h
          exact pres.noConfusion h
        | timeout =>
          rw [hp] at h
          exact pres.noConfusion h

theorem parseF_sym_maximal (f : Nat) (s : List Char) (pos : Nat)
    (t : List Char) (p2 : Nat) (h : parseF f s pos = .ok (.sym t) p2) :
    stopC (getC s p2) = true := by
  cases f with
  | zero => exact pres.noConfusion h
  | succ f =>
    by_cases h1 : getC s (wsSkip s pos) = '('
    · rw [parseF_paren f s pos h1] at h
      obtain ⟨items, hi⟩ := itemsF_shape s f (wsSkip s pos + 1) [] _ p2 h
      exact ast_node.noConfusion hi
    · by_cases h2 : isDigitC (getC s (wsSkip s pos)) = true
      · rw [parseF_digit f s pos h2] at h
        injection h with hn hp
        exact ast_node.noConfusion hn
      · by_cases h3 : getC s (wsSkip s pos) = quoteC
        · by_cases h4 : (scanStrL (s.drop (wsSkip s pos + 1))).2 = true
          · rw [parseF_quote_ok f s pos h3 h4] at h
            injection h with hn hp
            exact ast_node.noConfusion hn
          · rw [parseF_quote_err f s pos h3 (by simpa using h4)] at h
            exact pres.noConfusion h
        · by_cases h5 : getC s (wsSkip s pos) = nulC
          · rw [parseF_nul f s pos h5] at h
            exact pres.noConfusion h
          · by_cases h6 : (scanSymL (s.drop (wsSkip s pos))).2 = true
            · rw [parseF_sym_ok f s pos h1 (by simpa using h2) h3 h5 h6] at h
              injection h with hn hp
              rw [← hp, getC_drop]
              exact scanSymL_stop (s.drop (wsSkip s pos)) h6
            · rw [parseF_sym_ub f s pos h1 (by simpa using h2) h3 h5
                (by simpa using h6)] at h
              exact pres.noConfusion h

/-! ## wrap32 arithmetic -/

theorem wrap32_small (x : Int) (h1 : -2147483648 ≤ x) (h2 : x < 2147483648) :
    wrap32 x = x := by
  unfold wrap32
  omega

theorem wrap32_zero : wrap32 0 = 0 := by
  unfold wrap32
  decide

theorem wrap32_add_left (x y : Int) : wrap32 (wrap32 x + y) = wrap32 (x + y) := by
  unfold wrap32
  omega

theorem wrap32_idem (x : Int) : wrap32 (wrap32 x) = wrap32 x := by
  have := wrap32_add_left x 0
  simpa using this

/-! ## Dispatch equations of eval_ast_node -/

theorem eval_int (v : Int) : eval_ast_node (.int v) = .ok (.intV v) := by
  simp [eval_ast_node]

theorem eval_str (t : List Char) : eval_ast_node (.str t) = .ok (.strV t) := by
  simp [eval_ast_node]

theorem eval_sym (t : List Char) :
    eval_ast_node (.sym t) = .err "Cannot evaluate a standalone symbol" := by
  simp [eval_ast_node]

theorem eval_nil :
    eval_ast_node (.list []) = .err "Cannot evaluate an empty list" := by
  simp [eval_ast_node]

theorem eval_plus (args : List ast_node) :
    eval_ast_node (.list (.sym ['+'] :: args)) = plusLoop args 0 := by
  rw [eval_ast_node.eq_def]
  simp

theorem eval_minus_cons (a : ast_node) (rest : List ast_node) :
    eval_ast_node (.list (.sym ['-'] :: a :: rest)) =
      match eval_ast_node a with
      | .ok (.intV k) => minusLoop rest k
      | .ok (.strV _) => .err "Non-integer argument to +"
      | r => r := by
  rw [eval_ast_node]
  rw [if_neg (by decide), if_pos rfl]

theorem eval_concat (args : List ast_node) :
    eval_ast_node (.list (.sym "concat".toList :: args)) = concatLoop args [] := by
  rw [eval_ast_node.eq_def]
  simp

theorem eval_unknown (name : List Char) (args : List ast_node)
    (hp : name ≠ ['+']) (hm : name ≠ ['-']) (hc : name ≠ "concat".toList) :
    eval_ast_node (.list (.sym name :: args)) = .err "Unknown operator" := by
  have hc2 : name ≠ ['c', 'o', 'n', 'c', 'a', 't'] := by simpa using hc
  rw [eval_ast_node.eq_def]
  simp [hp, hm, hc2]

theorem eval_not_sym (op : ast_node) (args : List ast_node)
    (h : isSymNode op = false) :
    eval_ast_node (.list (op :: args)) =
      .err "First element of a list must be a symbol (operator)" := by
  cases op with
  | sym t => exact absurd h (by simp [isSymNode])
  | int v => simp [eval_ast_node]
  | str t => simp [eval_ast_node]
  | list l => simp [eval_ast_node]

/-! ## The operator argument loops -/

theorem plusLoop_nil (v : Int) : plusLoop [] v = .ok (.intV v) := by
  simp [plusLoop]

theorem plusLoop_cons_int (a : ast_node) (rest : List ast_node) (v k : Int)
    (h : eval_ast_node a = .ok (.intV k)) :
    plusLoop (a :: rest) v = plusLoop rest (wrap32 (v + k)) := by
  rw [plusLoop, h]

theorem plusLoop_cons_str (a : ast_node) (rest : List ast_node) (v : Int)
    (t : List Char) (h : eval_ast_node a = .ok (.strV t)) :
    plusLoop (a :: rest) v = .err "Non-integer argument to +" := by
  rw [plusLoop, h]

theorem plusLoop_cons_err (a : ast_node) (rest : List ast_node) (v : Int)
    (e : String) (h : eval_ast_node a = .err e) :
    plusLoop (a :: rest) v = .err e := by
  rw [plusLoop, h]

theorem minusLoop_cons_int (a : ast_node) (rest : List ast_node) (v k : Int)
    (h : eval_ast_node a = .ok (.intV k)) :
    minusLoop (a :: rest) v = minusLoop rest (wrap32 (v - k)) := by
  rw [minusLoop, h]

theorem minusLoop_cons_err (a : ast_node) (rest : List ast_node) (v : Int)
    (e : String) (h : eval_ast_node a = .err e) :
    minusLoop (a :: rest) v = .err e := by
  rw [minusLoop, h]

theorem concatLoop_nil (acc : List Char) : concatLoop [] acc = .ok (.strV acc) := by
  simp [concatLoop]

theorem concatLoop_cons_str (a : ast_node) (rest : List ast_node)
    (acc t : List Char) (h : eval_ast_node a = .ok (.strV t)) :
    concatLoop (a :: rest) acc = concatLoop rest (acc ++ t) := by
  rw [concatLoop, h]

theorem concatLoop_cons_int (a : ast_node) (rest : List ast_node)
    (acc : List Char) (k : Int) (h : eval_ast_node a = .ok (.intV k)) :
    concatLoop (a :: rest) acc = .err "Non-string argument to concat" := by
  rw [concatLoop, h]

theorem concatLoop_cons_err (a : ast_node) (rest : List ast_node)
    (acc : List Char) (e : String) (h : eval_ast_node a = .err e) :
    concatLoop (a :: rest) acc = .err e := by
  rw [concatLoop, h]

theorem plusLoop_ints (args : List ast_node) :
    ∀ (ks : List Int) (v : Int),
      args.map eval_ast_node = ks.map (fun k => eres.ok (.intV k)) →
      wrap32 v = v →
      plusLoop args v = .ok (.intV (wrap32 (v + ks.sum))) := by
  induction args with
  | nil =>
    intro ks v h hv
    have hks : ks = [] := by
      cases ks with
      | nil => rfl
      | cons k kt => simp at h
    subst hks
    rw [plusLoop_nil]
    simp [hv]
  | cons a rest ih =>
    intro ks v h hv
    cases ks with
    | nil => simp at h
    | cons k kt =>
      simp only [List.map_cons, List.cons.injEq] at h
      rw [plusLoop_cons_int a rest v k h.1, ih kt _ h.2 (wrap32_idem _)]
      rw [wrap32_add_left]
      simp [Int.add_assoc]

theorem plusLoop_pre_str (pre : List ast_node) :
    ∀ (ks : List Int) (bad : ast_node) (rest : List ast_node) (t : List Char)
      (v : Int),
      pre.map eval_ast_node = ks.map (fun k => eres.ok (.intV k)) →
      eval_ast_node bad = .ok (.strV t) →
      plusLoop (pre ++ bad :: rest) v = .err "Non-integer argument to +" := by
  induction pre with
  | nil =>
    intro ks bad rest t v h hbad
    exact plusLoop_cons_str bad rest v t hbad
  | cons a ptl ih =>
    intro ks bad rest t v h hbad
    cases ks with
    | nil => simp at h
    | cons k kt =>
      simp only [List.map_cons, List.cons.injEq] at h
      rw [List.cons_append, plusLoop_cons_int a _ v k h.1]
      exact ih kt bad rest t _ h.2 hbad

theorem plusLoop_pre_err (pre : List ast_node) :
    ∀ (ks : List Int) (bad : ast_node) (rest : List ast_node) (e : String)
      (v : Int),
      pre.map eval_ast_node = ks.map (fun k => eres.ok (.intV k)) →
      eval_ast_node bad = .err e →
      plusLoop (pre ++ bad :: rest) v = .err e := by
  induction pre with
  | nil =>
    intro ks bad rest e v h hbad
    exact plusLoop_cons_err bad rest v e hbad
  | cons a ptl ih =>
    intro ks bad rest e v h hbad
    cases ks with
    | nil => simp at h
    | cons k kt =>
      simp only [List.map_cons, List.cons.injEq] at h
      rw [List.cons_append, plusLoop_cons_int a _ v k h.1]
      exact ih kt bad rest e _ h.2 hbad

theorem minusLoop_pre_err (pre : List ast_node) :
    ∀ (ks : List Int) (bad : ast_node) (rest : List ast_node) (e : String)
      (v : Int),
      pre.map eval_ast_node = ks.map (fun k => eres.ok (.intV k)) →
      eval_ast_node bad = .err e →
      minusLoop (pre ++ bad :: rest) v = .err e := by
  induction pre with
  | nil =>
    intro ks bad rest e v h hbad
    exact minusLoop_cons_err bad rest v e hbad
  | cons a ptl ih =>
    intro ks bad rest e v h hbad
    cases ks with
    | nil => simp at h
    | cons k kt =>
      simp only [List.map_cons, List.cons.injEq] at h
      rw [List.cons_append, minusLoop_cons_int a _ v k h.1]
      exact ih kt bad rest e _ h.2 hbad

theorem concatLoop_strs (args : List ast_node) :
    ∀ (ts : List (List Char)) (acc : List Char),
      args.map eval_ast_node = ts.map (fun t => eres.ok (.strV t)) →
      concatLoop args acc = .ok (.strV (acc ++ ts.flatten)) := by
  induction args with
  | nil =>
    intro ts acc h
    have hts : ts = [] := by
      cases ts with
      | nil => rfl
      | cons t tt => simp at h
    subst hts
    rw [concatLoop_nil]
    simp
  | cons a rest ih =>
    intro ts acc h
    cases ts with
    | nil => simp at h
    | cons t tt =>
      simp only [List.map_cons, List.cons.injEq] at h
      rw [concatLoop_cons_str a rest acc t h.1, ih tt _ h.2]
      simp

theorem concatLoop_pre_int (pre : List ast_node) :
    ∀ (ts : List (List Char)) (bad : ast_node) (rest : List ast_node)
      (k : Int) (acc : List Char),
      pre.map eval_ast_node = ts.map (fun t => eres.ok (.strV t)) →
      eval_ast_node bad = .ok (.intV k) →
      concatLoop (pre ++ bad :: rest) acc = .err "Non-string argument to concat" := by
  induction pre with
  | nil =>
    intro ts bad rest k acc h hbad
    exact concatLoop_cons_int bad rest acc k hbad
  | cons a ptl ih =>
    intro ts bad rest k acc h hbad
    cases ts with
    | nil => simp at h
    | cons t tt =>
      simp only [List.map_cons, List.cons.injEq] at h
      rw [List.cons_append, concatLoop_cons_str a _ acc t h.1]
      exact ih tt bad rest k _ h.2 hbad

theorem concatLoop_pre_err (pre : List ast_node) :
    ∀ (ts : List (List Char)) (bad : ast_node) (rest : List ast_node)
      (e : String) (acc : List Char),
      pre.map eval_ast_node = ts.map (fun t => eres.ok (.strV t)) →
      eval_ast_node bad = .err e →
      concatLoop (pre ++ bad :: rest) acc = .err e := by
  induction pre with
  | nil =>
    intro ts bad rest e acc h hbad
    exact concatLoop_cons_err bad rest acc e hbad
  | cons a ptl ih =>
    intro ts bad rest e acc h hbad
    cases ts with
    | nil => simp at h
    | cons t tt =>
      simp only [List.map_cons, List.cons.injEq] at h
      rw [List.cons_append, concatLoop_cons_str a _ acc t h.1]
      exact ih tt bad rest e _ h.2 hbad

/-! ## Parsing the decimal text of a number (round-trip machinery) -/

theorem natDigits_lt_ten (n : Nat) : ∀ d ∈ natDigits n, d < 10 := by
  induction n using Nat.strong_induction_on with
  | _ n ih =>
    by_cases h : n < 10
    · rw [natDigits, if_pos h]
      intro d hd
      rw [List.mem_singleton.1 hd]
      exact h
    · rw [natDigits, if_neg h]
      intro d hd
      rcases List.mem_append.1 hd with h1 | h1
      · exact ih (n / 10) (by omega) d h1
      · rw [List.mem_singleton.1 h1]
        omega

theorem natDigits_ne_nil (n : Nat) : natDigits n ≠ [] := by
  rw [natDigits]
  split
  · simp
  · simp

theorem dchar_facts :
    ∀ d : Nat, d < 10 →
      isDigitC (Char.ofNat (48 + d)) = true ∧
      isWsC (Char.ofNat (48 + d)) = false ∧
      Char.ofNat (48 + d) ≠ '(' ∧
      dval (Char.ofNat (48 + d)) = (d : Int) := by
  decide

theorem scanIntL_stop (l : List Char) (v : Int)
    (h : isDigitC (l.headD nulC) = false) : scanIntL l v = (0, v) := by
  cases l with
  | nil => simp [scanIntL]
  | cons c r => exact scanIntL_cons_other c r v (by simpa using h)

theorem scanIntL_digits (ds : List Nat) :
    ∀ (rest : List Char) (v : Int), (∀ d ∈ ds, d < 10) →
      isDigitC (rest.headD nulC) = false →
      scanIntL ((ds.map (fun d => Char.ofNat (48 + d))) ++ rest) v =
        (ds.length, ds.foldl (fun (a : Int) (d : Nat) => wrap32 (a * 10 + (d : Int))) v) := by
  induction ds with
  | nil =>
    intro rest v _ hrest
    simpa using scanIntL_stop rest v hrest
  | cons d dt ih =>
    intro rest v hds hrest
    have hd10 : d < 10 := hds d (List.mem_cons_self d dt)
    obtain ⟨hdig, hws, hlp, hdval⟩ := dchar_facts d hd10
    simp only [List.map_cons, List.cons_append]
    rw [scanIntL_cons_digit _ _ v hdig, hdval]
    rw [ih rest _ (fun x hx => hds x (List.mem_cons_of_mem d hx)) hrest]
    simp

theorem foldl_natDigits :
    ∀ n : Nat, n < 2147483648 →
      (natDigits n).foldl (fun (a : Int) (d : Nat) => wrap32 (a * 10 + (d : Int))) 0 = (n : Int) := by
  intro n
  induction n using Nat.strong_induction_on with
  | _ n ih =>
    intro h
    by_cases hn : n < 10
    · rw [natDigits, if_pos hn]
      rw [List.foldl_cons, List.foldl_nil]
      have hz : (0 : Int) * 10 + (n : Int) = (n : Int) := by omega
      rw [hz]
      exact wrap32_small _ (by omega) (by omega)
    · rw [natDigits, if_neg hn, List.foldl_append]
      rw [ih (n / 10) (by omega) (by omega)]
      rw [List.foldl_cons, List.foldl_nil]
      have heq : ((n / 10 : Nat) : Int) * 10 + ((n % 10 : Nat) : Int) = (n : Int) := by
        omega
      rw [heq]
      exact wrap32_small _ (by omega) (by omega)

theorem parse_natText (n : Nat) (h : n < 2147483648) :
    parse (natText n) 0 = .ok (.int (n : Int)) (natText n).length := by
  obtain ⟨d, dt, hds⟩ : ∃ d dt, natDigits n = d :: dt := by
    cases hd : natDigits n with
    | nil => exact absurd hd (natDigits_ne_nil n)
    | cons d dt => exact ⟨d, dt, rfl⟩
  have hlt := natDigits_lt_ten n
  have hd10 : d < 10 := hlt d (by rw [hds]; exact List.mem_cons_self d dt)
  obtain ⟨hdig, hws, hlp, hdval⟩ := dchar_facts d hd10
  have htext : natText n =
      Char.ofNat (48 + d) :: dt.map (fun x => Char.ofNat (48 + x)) := by
    rw [natText, hds, List.map_cons]
  have hget : getC (natText n) 0 = Char.ofNat (48 + d) := by
    rw [htext]
    rfl
  have hws0 : wsSkip (natText n) 0 = 0 :=
    wsSkip_of_not_ws _ 0 (by rw [hget]; exact hws)
  rw [parse, show stdFuel (natText n) = (2 * (natText n).length + 2) + 1 from rfl]
  rw [parseF_digit _ _ 0 (by rw [hws0, hget]; exact hdig), hws0]
  have hscan : scanIntL ((natText n).drop 0) 0 = ((natDigits n).length, (n : Int)) := by
    rw [List.drop_zero, natText]
    have hz := scanIntL_digits (natDigits n) [] 0 hlt (by decide)
    rw [List.append_nil] at hz
    rw [hz, foldl_natDigits n h]
  rw [hscan]
  simp [natText]

/-! ## The claims -/

/-- C1: the spec requires `(-)` to yield an ArityError, but evaluating the
list whose only child is the symbol `-` (the only list with first child
`-` and length < 2) makes the C code read `items[1]` out of bounds:
the model yields the undefined-behaviour outcome, not an error result. -/
theorem claim_c1 : eval_ast_node (.list [.sym ['-']]) = .ub := by
  simp [eval_ast_node]

/-- C2 (counterexample): parsing `a(b ` succeeds with the Symbol `a(b`,
whose text contains the character `(` — refuting the claim that a parsed
symbol never contains `(` (the C symbol scanner does not stop at `(`). -/
theorem claim_c2_counterexample :
    parse "a(b ".toList 0 = .ok (.sym "a(b".toList) 3 ∧ '(' ∈ "a(b".toList :=
  ⟨rfl, by decide⟩

/-- C2 (amended): every Symbol node in any successful parse result has text
consisting only of characters that are none of space, `)`, newline, tab
(`(` is allowed and the text may be empty), and for a parse call returning
a Symbol the run is maximal: the character at the final cursor is one of
those four delimiters (a run that reaches end of input does not produce a
Symbol at all — the scanner overruns the buffer, outcome `ub`). -/
theorem claim_c2 (f : Nat) (s : List Char) (pos : Nat) (n : ast_node)
    (p2 : Nat) (h : parseF f s pos = .ok n p2) :
    symbolsOk n = true ∧ (∀ t, n = .sym t → stopC (getC s p2) = true) := by
  constructor
  · exact (parse_symbolsOk s f).1 pos n p2 h
  · intro t ht
    subst ht
    exact parseF_sym_maximal f s pos t p2 h

/-- C2 (witness): the amended claim applied to the parse of `x y`. -/
theorem claim_c2_witness :
    symbolsOk (.sym ['x']) = true ∧
    (∀ t, (ast_node.sym ['x']) = .sym t → stopC (getC "x y".toList 1) = true) :=
  claim_c2 11 ("x y".toList) 0 (.sym ['x']) 1 rfl

/-- C3: for every non-negative integer below 2^31 (representable in the
32-bit `int` of the reference), parsing its decimal text from cursor 0
yields an IntLiteral node holding the integer with the whole text
consumed, and evaluating that node yields the same IntValue. -/
theorem claim_c3 (n : Nat) (h : n < 2147483648) :
    parse (natText n) 0 = .ok (.int (n : Int)) (natText n).length ∧
    eval_ast_node (.int (n : Int)) = .ok (.intV (n : Int)) :=
  ⟨parse_natText n h, eval_int _⟩

/-- C3 (witness): the round trip at 42. -/
theorem claim_c3_witness :
    42 < 2147483648 ∧
    (parse (natText 42) 0 = .ok (.int ((42 : Nat) : Int)) (natText 42).length ∧
      eval_ast_node (.int ((42 : Nat) : Int)) = .ok (.intV ((42 : Nat) : Int))) :=
  ⟨by norm_num, claim_c3 42 (by norm_num)⟩

/-- C4: for a list with first child the symbol `+`: if all remaining
children evaluate to IntValues, the result is the IntValue of their sum
(32-bit wrapped, zero arguments giving 0); if the children before some
position evaluate to IntValues and that child evaluates to a non-integer
value, the result is the TypeMismatch error `Non-integer argument to +`. -/
theorem claim_c4 :
    (∀ (args : List ast_node) (ks : List Int),
      args.map eval_ast_node = ks.map (fun k => eres.ok (.intV k)) →
      eval_ast_node (.list (.sym ['+'] :: args)) =
        .ok (.intV (wrap32 ks.sum))) ∧
    (∀ (pre : List ast_node) (ks : List Int) (bad : ast_node)
      (rest : List ast_node) (t : List Char),
      pre.map eval_ast_node = ks.map (fun k => eres.ok (.intV k)) →
      eval_ast_node bad = .ok (.strV t) →
      eval_ast_node (.list (.sym ['+'] :: (pre ++ bad :: rest))) =
        .err "Non-integer argument to +") := by
  constructor
  · intro args ks h
    rw [eval_plus, plusLoop_ints args ks 0 h wrap32_zero]
    simp
  · intro pre ks bad rest t h hbad
    rw [eval_plus]
    exact plusLoop_pre_str pre ks bad rest t 0 h hbad

/-- C4 (witness): `(+ 1 2)` evaluates to 3 and `(+ "s")` to the
TypeMismatch error. -/
theorem claim_c4_witness :
    eval_ast_node (.list [.sym ['+'], .int 1, .int 2]) = .ok (.intV 3) ∧
    eval_ast_node (.list [.sym ['+'], .str "s".toList]) =
      .err "Non-integer argument to +" := by
  constructor
  · have h := claim_c4.1 [.int 1, .int 2] [1, 2] (by simp [eval_int])
    rw [h]
    have h3 : wrap32 (([1, 2] : List Int).sum) = 3 := by
      norm_num
      decide
    rw [h3]
  · exact claim_c4.2 [] [] (.str "s".toList) [] ("s".toList) rfl (eval_str _)

/-- C5: for a list with first child the symbol `concat`: if all remaining
children evaluate to StringValues, the result is the StringValue of their
concatenation in order (zero arguments giving the empty string); if the
children before some position evaluate to StringValues and that child
evaluates to an integer value, the result is the TypeMismatch error
`Non-string argument to concat`. -/
theorem claim_c5 :
    (∀ (args : List ast_node) (ts : List (List Char)),
      args.map eval_ast_node = ts.map (fun t => eres.ok (.strV t)) →
      eval_ast_node (.list (.sym "concat".toList :: args)) =
        .ok (.strV ts.flatten)) ∧
    (∀ (pre : List ast_node) (ts : List (List Char)) (bad : ast_node)
      (rest : List ast_node) (k : Int),
      pre.map eval_ast_node = ts.map (fun t => eres.ok (.strV t)) →
      eval_ast_node bad = .ok (.intV k) →
      eval_ast_node (.list (.sym "concat".toList :: (pre ++ bad :: rest))) =
        .err "Non-string argument to concat") := by
  constructor
  · intro args ts h
    rw [eval_concat, concatLoop_strs args ts [] h]
    simp
  · intro pre ts bad rest k h hbad
    rw [eval_concat]
    exact concatLoop_pre_int pre ts bad rest k [] h hbad

/-- C5 (witness): `(concat "a" "b")` evaluates to `"ab"` and
`(concat 1 "x")` to the TypeMismatch error. -/
theorem claim_c5_witness :
    eval_ast_node (.list [.sym "concat".toList, .str "a".toList,
      .str "b".toList]) = .ok (.strV "ab".toList) ∧
    eval_ast_node (.list [.sym "concat".toList, .int 1, .str "x".toList]) =
      .err "Non-string argument to concat" := by
  constructor
  · have h := claim_c5.1 [.str "a".toList, .str "b".toList]
      ["a".toList, "b".toList] (by simp [eval_str])
    rw [h]
    rfl
  · exact claim_c5.2 [] [] (.int 1) [.str "x".toList] 1 rfl (eval_int 1)

/-- C6: eval dispatch on node shape — a bare Symbol gives the
bare-symbol error, the empty list the empty-list error, a list whose
first child is not a Symbol the operator-must-be-symbol error, and a
list headed by a Symbol other than `+`, `-`, `concat` the
unknown-operator error. -/
theorem claim_c6 :
    (∀ t, eval_ast_node (.sym t) = .err "Cannot evaluate a standalone symbol") ∧
    (eval_ast_node (.list []) = .err "Cannot evaluate an empty list") ∧
    (∀ (op : ast_node) (args : List ast_node), isSymNode op = false →
      eval_ast_node (.list (op :: args)) =
        .err "First element of a list must be a symbol (operator)") ∧
    (∀ (t : List Char) (args : List ast_node),
      t ≠ ['+'] → t ≠ ['-'] → t ≠ "concat".toList →
      eval_ast_node (.list (.sym t :: args)) = .err "Unknown operator") :=
  ⟨fun t => eval_sym t, eval_nil,
   fun op args h => eval_not_sym op args h,
   fun t args h1 h2 h3 => eval_unknown t args h1 h2 h3⟩

/-- C6 (witness): the four dispatch errors at concrete inputs. -/
theorem claim_c6_witness :
    eval_ast_node (.sym "x".toList) = .err "Cannot evaluate a standalone symbol" ∧
    eval_ast_node (.list []) = .err "Cannot evaluate an empty list" ∧
    eval_ast_node (.list [.int 1, .int 2]) =
      .err "First element of a list must be a symbol (operator)" ∧
    eval_ast_node (.list [.sym "foo".toList, .int 1]) = .err "Unknown operator" :=
  ⟨claim_c6.1 _, claim_c6.2.1,
   claim_c6.2.2.1 (.int 1) [.int 2] rfl,
   claim_c6.2.2.2 ("foo".toList) [.int 1] (by decide) (by decide) (by decide)⟩

/-- C7: parse never times out at the standard fuel, its only error
messages are the unexpected-end-of-input, unmatched-parenthesis and
unterminated-string errors; end of input after the whitespace skip gives
the unexpected-end-of-input error, `(` alone the unmatched-parenthesis
error at the point of failure, and an unclosed string literal the
unterminated-string error. -/
theorem claim_c7 :
    (∀ (s : List Char) (pos : Nat),
      parse s pos ≠ .timeout ∧
      (∀ m p2, parse s pos = .err m p2 →
        m = "Unexpected end of input" ∨ m = "Unmatched '(' in input" ∨
          m = "Unterminated string literal in input") ∧
      (getC s (wsSkip s pos) = nulC →
        parse s pos = .err "Unexpected end of input" (wsSkip s pos))) ∧
    parse "(".toList 0 = .err "Unmatched '(' in input" 1 ∧
    parse ([quoteC] ++ "ab".toList) 0 =
      .err "Unterminated string literal in input" 3 ∧
    parse [] 0 = .err "Unexpected end of input" 0 := by
  refine ⟨?_, rfl, rfl, rfl⟩
  intro s pos
  refine ⟨?_, ?_, ?_⟩
  · apply (parse_fuel s (stdFuel s)).1 pos
    unfold stdFuel
    omega
  · intro m p2 h
    exact (parse_errs s (stdFuel s)).1 pos m p2 h
  · intro h
    rw [parse, show stdFuel s = (2 * s.length + 2) + 1 from rfl]
    exact parseF_nul _ s pos h

/-- C7 (witness): the general statement applied to concrete inputs. -/
theorem claim_c7_witness :
    parse "x y".toList 0 ≠ .timeout ∧
    parse [] 0 = .err "Unexpected end of input" 0 :=
  ⟨(claim_c7.1 "x y".toList 0).1, (claim_c7.1 [] 0).2.2 rfl⟩

/-- C8: the cursor contract fails on the code — on the input `abc`
(a symbol run reaching the end of the input) the symbol scanner does not
stop at the NUL terminator: it advances the cursor past the end of the
input and reads out of bounds, so parse ends in undefined behaviour
rather than leaving the cursor at or before the end. -/
theorem claim_c8 : parse "abc".toList 0 = .ub := rfl

/-- C9: left-to-right short-circuiting for each built-in operator — if
the arguments before some position are accepted by the operator (IntValues
for `+` and `-`, StringValues for `concat`) and evaluating the argument at
that position yields an error, the whole application yields exactly that
error. -/
theorem claim_c9 :
    (∀ (pre : List ast_node) (ks : List Int) (bad : ast_node)
      (rest : List ast_node) (e : String),
      pre.map eval_ast_node = ks.map (fun k => eres.ok (.intV k)) →
      eval_ast_node bad = .err e →
      eval_ast_node (.list (.sym ['+'] :: (pre ++ bad :: rest))) = .err e) ∧
    (∀ (pre : List ast_node) (ks : List Int) (bad : ast_node)
      (rest : List ast_node) (e : String),
      pre.map eval_ast_node = ks.map (fun k => eres.ok (.intV k)) →
      eval_ast_node bad = .err e →
      eval_ast_node (.list (.sym ['-'] :: (pre ++ bad :: rest))) = .err e) ∧
    (∀ (pre : List ast_node) (ts : List (List Char)) (bad : ast_node)
      (rest : List ast_node) (e : String),
      pre.map eval_ast_node = ts.map (fun t => eres.ok (.strV t)) →
      eval_ast_node bad = .err e →
      eval_ast_node (.list (.sym "concat".toList :: (pre ++ bad :: rest))) =
        .err e) := by
  refine ⟨?_, ?_, ?_⟩
  · intro pre ks bad rest e h hbad
    rw [eval_plus]
    exact plusLoop_pre_err pre ks bad rest e 0 h hbad
  · intro pre ks bad rest e h hbad
    cases pre with
    | nil =>
      rw [List.nil_append, eval_minus_cons bad rest, hbad]
    | cons p0 ptl =>
      cases ks with
      | nil => simp at h
      | cons k0 kt =>
        simp only [List.map_cons, List.cons.injEq] at h
        rw [List.cons_append, eval_minus_cons p0 (ptl ++ bad :: rest), h.1]
        exact minusLoop_pre_err ptl kt bad rest e k0 h.2 hbad
  · intro pre ts bad rest e h hbad
    rw [eval_concat]
    exact concatLoop_pre_err pre ts bad rest e [] h hbad

/-- C9 (witness): `(+ y 7)` propagates the bare-symbol error of `y`. -/
theorem claim_c9_witness :
    eval_ast_node (.list [.sym ['+'], .sym "y".toList, .int 7]) =
      .err "Cannot evaluate a standalone symbol" :=
  claim_c9.1 [] [] (.sym "y".toList) [.int 7] _ rfl (eval_sym _)

/-- C10: on the input `)` parse does not fail: it succeeds with a Symbol
node whose text is empty, and the cursor stays at 0 — the `)` itself is
not consumed. -/
theorem claim_c10 : parse ")".toList 0 = .ok (.sym []) 0 := rfl

end Yalisp
